import Mathlib

/-!
Verification development for the WEPX weather toolkit.

The development shallowly embeds the parts of the repository that the
claims concern:

* `src/backend/helpers/stream_encoder.py` — the stream writer
  (`write_chunk`, `prepare_payload`) and the per-stream statistics and
  quantization of `renderImage` / `appendIFrame` / `appendImage`.
  Floating point rasters are modelled as grids of rationals, with
  `Option` capturing NaN cells.
* `src/backend/helpers/run_model.py` — the per-cycle orchestration loop
  of `process_single_model` (per-stream state, I/P cadence, lock file).
* `src/backend/helpers/download.py` — `check_download_status` and
  `get_forecast_duration` of `WeatherModelConfig`, with datetimes
  modelled as minutes since the epoch.
* `src/frontend/websocket.py` — the `FileWatcher.read_new_frames`
  record parser and the per-frame client messages of `handler`.

The current `.wepx` codec (scale buckets, `meta_len` payload field,
spatial differencing) is described by the spec but its source is not
present (the checked-in `stream_encoder.py` is an earlier WebP-based
version whose `renderImage` does not even accept the `extent` keyword
its caller passes); those parts are modelled from the spec and are
marked as such.
-/

namespace Wepx

/-! ### Byte-level encoding

Models of `struct.pack` / `struct.unpack` with the formats used by the
repository (`'<I'`, `'<IB'`, `'<H'`).  Byte strings are lists of
naturals; the pack models are exact for in-range values (Python's
`struct.pack` raises on out-of-range values, so all theorems that need
the round trip carry the corresponding bound). -/

/-- Little-endian 4-byte encoding of a natural, as `struct.pack` with format `<I`. -/
def u32le (n : ℕ) : List ℕ :=
  [n % 256, n / 256 % 256, n / 256 ^ 2 % 256, n / 256 ^ 3 % 256]

/-- Little-endian 2-byte encoding of a natural, as `struct.pack` with format `<H`. -/
def u16le (n : ℕ) : List ℕ :=
  [n % 256, n / 256 % 256]

/-- Little-endian 4-byte decode, as `struct.unpack` with format `<I`. -/
def readU32 (b : List ℕ) : ℕ :=
  b.getD 0 0 + 256 * b.getD 1 0 + 256 ^ 2 * b.getD 2 0 + 256 ^ 3 * b.getD 3 0

/-- Little-endian 2-byte decode, as `struct.unpack` with format `<H`. -/
def readU16 (b : List ℕ) : ℕ :=
  b.getD 0 0 + 256 * b.getD 1 0

/-! ### Stream writer (`stream_encoder.write_chunk`, `stream_encoder.prepare_payload`) -/

/-- Constant `stream_encoder.TYPE_I_FRAME`. -/
def TYPE_I_FRAME : ℕ := 0x00

/-- Constant `stream_encoder.TYPE_P_FRAME`. -/
def TYPE_P_FRAME : ℕ := 0x01

/-- Function `stream_encoder.write_chunk`: writes `[Length][Type][Payload]`, the header
packed with `struct.pack` format `<IB` and `Length = len(payload)`. -/
def write_chunk (frameType : ℕ) (payload : List ℕ) : List ℕ :=
  u32le payload.length ++ [frameType] ++ payload

/-- Function `stream_encoder.prepare_payload`: prepends the 4-byte little-endian
`valid_time` to the raw data payload. -/
def prepare_payload (validTime : ℕ) (dataBytes : List ℕ) : List ℕ :=
  u32le validTime ++ dataBytes

/-- Modelled from the spec: the current `.wepx` frame payload assembly
(spec section 4.1, "Frame payload assembly"), which is not present in the
checked-in `stream_encoder.py` (an earlier version without the meta block).
`payload = valid_time (u32 LE) ++ meta_len (u16 LE) ++ meta_json ++ body`,
where `meta_len` is the byte length of the meta block. -/
def wepxPayload (validTime : ℕ) (meta body : List ℕ) : List ℕ :=
  prepare_payload validTime (u16le meta.length ++ meta ++ body)

/-! ### Rasters and the statistics of `stream_encoder.renderImage`

A raster is a 2D grid of 32-bit floats where NaN means "no data"; we
model cells as `Option ℚ` (`none` is NaN) and real arithmetic exactly
over `ℚ`. -/

/-- A raster cell: `none` models NaN ("no data"). -/
abbrev Cell := Option ℚ

/-- A 2D raster, row-major. -/
abbrev Grid := List (List Cell)

/-- The non-NaN values of a raster: `data_array[~np.isnan(data_array)]`. -/
def validValues (g : Grid) : List ℚ :=
  g.flatten.filterMap id

/-- Binary minimum of rationals (`np.min` accumulation step). -/
def qmin (a b : ℚ) : ℚ := if a ≤ b then a else b

/-- Binary maximum of rationals (`np.max` accumulation step). -/
def qmax (a b : ℚ) : ℚ := if a ≤ b then b else a

/-- The `(MIN, MAX)` statistics of `renderImage`: the minimum and maximum of
the non-NaN values, or `(0.0, 1.0)` when there are none. -/
def valueStats (g : Grid) : ℚ × ℚ :=
  match validValues g with
  | [] => (0, 1)
  | v :: vs => (vs.foldl qmin v, vs.foldl qmax v)

/-- The per-stream metadata dict frozen by `renderImage` at frame 0. -/
structure StreamMeta where
  MIN : ℚ
  RANGE : ℚ
  RES_MIN : ℚ
  RES_RANGE : ℚ
  WIDTH : ℕ
  HEIGHT : ℕ
deriving DecidableEq

/-- The metadata computation of `renderImage`: `RANGE = MAX - MIN`, replaced
by `1.0` when zero; `RES_RANGE = RANGE * 0.2`; `RES_MIN = -RES_RANGE / 2`;
`WIDTH`/`HEIGHT` from the array shape. -/
def computeStreamMeta (g : Grid) : StreamMeta :=
  let s := valueStats g
  let range0 := s.2 - s.1
  let RANGE := if range0 = 0 then 1 else range0
  { MIN := s.1
    RANGE := RANGE
    RES_MIN := -(RANGE * (1 / 5)) / 2
    RES_RANGE := RANGE * (1 / 5)
    WIDTH := (g.headD []).length
    HEIGHT := g.length }

/-! ### Quantization of `appendIFrame` / `appendImage` (checked-in version)

`np.nan_to_num(·, nan=MIN)` fills NaN with `MIN`; the base layer is
`clip((v - MIN) / RANGE * 255, 0, 255)` truncated to `uint8`; the
residual layer is the 16-bit quantized error of the base-layer
reconstruction.  `astype` truncation of a clipped nonnegative float is a
floor. -/

/-- NaN fill `np.nan_to_num(c, nan=m)`. -/
def nanFill (m : ℚ) (c : Cell) : ℚ := c.getD m

/-- Truncation `np.clip(x, 0, 255).astype(np.uint8)`. -/
def clipByte (x : ℚ) : ℕ := (⌊min 255 (max 0 x)⌋).toNat

/-- Truncation `np.clip(x, 0, 65535).astype(np.uint16)`. -/
def clipWord (x : ℚ) : ℕ := (⌊min 65535 (max 0 x)⌋).toNat

/-- One cell of the 8-bit base layer: `clip((v - MIN) / RANGE * 255, 0, 255)`. -/
def baseCell (meta : StreamMeta) (v : ℚ) : ℕ :=
  clipByte ((v - meta.MIN) / meta.RANGE * 255)

/-- Base-layer reconstruction: `base / 255 * RANGE + MIN`. -/
def reconBase (meta : StreamMeta) (b : ℕ) : ℚ :=
  (b : ℚ) / 255 * meta.RANGE + meta.MIN

/-- One cell of the 16-bit residual layer:
`clip((v - recon - RES_MIN) / RES_RANGE * 65535, 0, 65535)`. -/
def resCell (meta : StreamMeta) (v : ℚ) : ℕ :=
  clipWord ((v - reconBase meta (baseCell meta v) - meta.RES_MIN) / meta.RES_RANGE * 65535)

/-- The 8-bit base layer of a raster, NaNs filled with `MIN` first. -/
def baseLayer (meta : StreamMeta) (g : Grid) : List (List ℕ) :=
  g.map (List.map fun c => baseCell meta (nanFill meta.MIN c))

/-- The 16-bit residual layer of a raster, NaNs filled with `MIN` first. -/
def resLayer (meta : StreamMeta) (g : Grid) : List (List ℕ) :=
  g.map (List.map fun c => resCell meta (nanFill meta.MIN c))

/-- The alpha mask of `appendIFrame`: 0 where NaN, 255 where valid. -/
def alphaMask (g : Grid) : List (List ℕ) :=
  g.map (List.map fun c => match c with | none => 0 | some _ => 255)

/-- Cellwise combination of two grids (`numpy` elementwise operation). -/
def gridZipWith (f : α → β → γ) (x : List (List α)) (y : List (List β)) : List (List γ) :=
  List.zipWith (List.zipWith f) x y

/-- The base-layer delta of `appendImage`:
`base_curr.astype(int16) - base_prev.astype(int16)`, both layers
requantized from the raw (NaN-filled) arrays with the frozen metadata. -/
def deltaBaseLayer (meta : StreamMeta) (prev curr : Grid) : List (List ℤ) :=
  gridZipWith (fun (c p : ℕ) => (c : ℤ) - (p : ℤ)) (baseLayer meta curr) (baseLayer meta prev)

/-- The residual-layer delta of `appendImage`:
`res_curr.astype(int32) - res_prev.astype(int32)`. -/
def deltaResLayer (meta : StreamMeta) (prev curr : Grid) : List (List ℤ) :=
  gridZipWith (fun (c p : ℕ) => (c : ℤ) - (p : ℤ)) (resLayer meta curr) (resLayer meta prev)

/-! ### The per-cycle stream loop of `run_model.process_single_model` -/

/-- Record type tag: `TYPE_I_FRAME` / `TYPE_P_FRAME`. -/
inductive FrameType where
  | I
  | P
deriving DecidableEq

/-- One record appended to a stream, tagged with the metadata that was passed
to the encoder to produce it. -/
inductive Record where
  | iframe (metaUsed : StreamMeta) (base res mask : List (List ℕ))
  | pframe (metaUsed : StreamMeta) (deltaBase deltaRes : List (List ℤ))

/-- The type tag of a record. -/
def Record.recType : Record → FrameType
  | .iframe _ _ _ _ => .I
  | .pframe _ _ _ => .P

/-- The metadata a record was encoded with. -/
def Record.metaUsed : Record → StreamMeta
  | .iframe m _ _ _ => m
  | .pframe m _ _ => m

/-- State `variable_streams[STREAM_ID]` in `process_single_model`. -/
structure StreamState where
  metadata : StreamMeta
  lastArray : Grid
  frameCount : ℕ

/-- The record produced by `appendIFrame` for a raster under given metadata. -/
def mkIFrameRecord (meta : StreamMeta) (g : Grid) : Record :=
  .iframe meta (baseLayer meta g) (resLayer meta g) (alphaMask g)

/-- The record produced by `appendImage` (P-frame) from the previous and
current raw rasters under given metadata. -/
def mkPFrameRecord (meta : StreamMeta) (prev curr : Grid) : Record :=
  .pframe meta (deltaBaseLayer meta prev curr) (deltaResLayer meta prev curr)

/-- Stream initialization (`renderImage` followed by the state stored by
`process_single_model`): computes the frozen metadata from frame 0, emits the
frame-0 I-frame and stores `frame_count = 0`. -/
def initStream (g : Grid) : Record × StreamState :=
  (mkIFrameRecord (computeStreamMeta g) g, ⟨computeStreamMeta g, g, 0⟩)

/-- Constant `run_model.I_FRAME_INTERVAL`. -/
def I_FRAME_INTERVAL : ℕ := 8

/-- One append iteration of `process_single_model`:
`current_frame_count = frame_count + 1`; an I-frame when
`current_frame_count % I_FRAME_INTERVAL == 0`, else a P-frame from the stored
previous raw raster; `last_array` and `frame_count` are updated, `metadata`
is carried over unchanged. -/
def appendStep (s : StreamState) (g : Grid) : Record × StreamState :=
  let c := s.frameCount + 1
  (if c % I_FRAME_INTERVAL = 0 then mkIFrameRecord s.metadata g
   else mkPFrameRecord s.metadata s.lastArray g,
   ⟨s.metadata, g, c⟩)

/-- Processing of the frames after frame 0 of one stream. -/
def processFrom (s : StreamState) : List Grid → List Record
  | [] => []
  | g :: rest =>
    let rs := appendStep s g
    rs.1 :: processFrom rs.2 rest

/-- Processing of all frames of one stream within a cycle, in order. -/
def processStream : List Grid → List Record
  | [] => []
  | g :: rest =>
    let rs := initStream g
    rs.1 :: processFrom rs.2 rest

/-! ### The `.wepx` codec, modelled from the spec

The current codec (spec section 4.1) is not in the checked-in
`stream_encoder.py`; the following definitions are modelled from the
spec's words. -/

/-- Modelled from the spec: scale selection from the first frame's value range
(section 4.1): no valid pixels gives the fallback `100.0`; `R == 0` gives
`10000.0`; `R > 200` gives `1.0`; `15 < R <= 200` gives `10.0`; `5 < R <= 15`
gives `100.0`; `R <= 5` gives `10000.0`. -/
def chooseScale : Option ℚ → ℚ
  | none => 100
  | some R =>
    if R = 0 then 10000
    else if 200 < R then 1
    else if 15 < R then 10
    else if 5 < R then 100
    else 10000

/-- The value range `R = max - min` over non-NaN pixels, `none` when the
raster has no valid pixel. -/
def valueRange (g : Grid) : Option ℚ :=
  match validValues g with
  | [] => none
  | v :: vs => some (vs.foldl qmax v - vs.foldl qmin v)

/-- Modelled from the spec: the scale chosen at stream initialization, a
function of the first frame's non-NaN value range. -/
def scale_chosen (g : Grid) : ℚ := chooseScale (valueRange g)

/-- Modelled from the spec: quantization `q = round(v * scale)` as a signed
integer, NaN replaced by 0 prior to quantization (section 4.1). -/
def quantCell (scale : ℚ) (c : Cell) : ℤ := round (c.getD 0 * scale)

/-- Quantization of a whole raster with a fixed scale. -/
def quantGrid (scale : ℚ) (g : Grid) : List (List ℤ) :=
  g.map (List.map (quantCell scale))

/-- Modelled from the spec: spatial differencing along each row, column 0 kept
as-is: `d[r, 0] = q[r, 0]` and `d[r, c] = q[r, c] - q[r, c-1]` for `c >= 1`. -/
def spatialDiffRow : List ℤ → List ℤ
  | [] => []
  | a :: rest => a :: List.zipWith (fun x y => x - y) rest (a :: rest)

/-- Spatial differencing over the quantized grid, row by row. -/
def spatialDiffGrid (g : List (List ℤ)) : List (List ℤ) :=
  g.map spatialDiffRow

/-- Inverse of spatial differencing along a row (running sums), as a decoder
performs it. -/
def unSpatialDiffRow : List ℤ → List ℤ
  | [] => []
  | a :: rest => List.scanl (· + ·) a rest

/-- Inverse of spatial differencing over a grid. -/
def unSpatialDiffGrid (g : List (List ℤ)) : List (List ℤ) :=
  g.map unSpatialDiffRow

/-- Modelled from the spec: the temporal difference of a P-frame, the previous
raster requantized from its raw values with the frozen scale, then
`temporal_diff = q_curr - q_prev`. -/
def temporalDiff (scale : ℚ) (prev curr : Grid) : List (List ℤ) :=
  gridZipWith (fun c p => c - p) (quantGrid scale curr) (quantGrid scale prev)

/-- Modelled from the spec: the uncompressed P-frame body, spatial differencing
applied to the temporal difference. -/
def wepxPFrameBody (scale : ℚ) (prev curr : Grid) : List (List ℤ) :=
  spatialDiffGrid (temporalDiff scale prev curr)

/-- Decoder-side reconstruction of the current quantized frame from the
quantized previous frame and a P-frame body. -/
def wepxReconstructP (scale : ℚ) (prev : Grid) (body : List (List ℤ)) : List (List ℤ) :=
  gridZipWith (fun p d => p + d) (quantGrid scale prev) (unSpatialDiffGrid body)

/-- Two grids have the same shape: same number of rows and rowwise equal
lengths. -/
def sameShape (x y : Grid) : Prop :=
  x.map List.length = y.map List.length

/-! ### The cycle scheduler of `download.WeatherModelConfig` -/

/-- The status returned by `check_download_status` (the informational text of
the Python strings is dropped). -/
inductive CycleStatus where
  | READY
  | WAITING
  | MISSED
  | NO_CYCLE
deriving DecidableEq

/-- The `.hour` of a datetime given as minutes since the epoch (Python floor
division and nonnegative modulo). -/
def hourOfMinutes (t : ℤ) : ℤ := (Int.fdiv t 60).emod 24

/-- Flooring `current_time_utc.replace(minute=0, second=0, microsecond=0)` in minutes. -/
def floorToHour (t : ℤ) : ℤ := 60 * Int.fdiv t 60

/-- The 24 candidate times scanned by `check_download_status`:
`now_hour - i hours` for `i = 0 .. 23`. -/
def candidateTimes (now : ℤ) : List ℤ :=
  (List.range 24).map fun i => floorToHour now - 60 * (i : ℤ)

/-- The scanning loop of `check_download_status`: for each candidate whose
hour is in `all_cycles`, `start = cycle + lead_minutes` and
`end = start + max_wait_minutes`; a candidate whose window contains `now`
returns `READY` immediately; otherwise the first non-`NO_CYCLE` status seen
(`WAITING` when `now < start`, else `MISSED`) is kept. -/
def statusLoop (allCycles : List ℤ) (lead maxWait now : ℤ) :
    List ℤ → CycleStatus × Option ℤ → CycleStatus × Option ℤ
  | [], best => best
  | c :: rest, best =>
    if hourOfMinutes c ∈ allCycles then
      if c + lead ≤ now ∧ now ≤ c + lead + maxWait then (.READY, some c)
      else if now < c + lead then
        statusLoop allCycles lead maxWait now rest
          (if best.1 = .NO_CYCLE then (.WAITING, some c) else best)
      else
        statusLoop allCycles lead maxWait now rest
          (if best.1 = .NO_CYCLE then (.MISSED, some c) else best)
    else statusLoop allCycles lead maxWait now rest best

/-- Method `WeatherModelConfig.check_download_status`, over minutes since the epoch:
scans the 24 candidate hours backwards from the floor of the current hour. -/
def check_download_status (allCycles : List ℤ) (lead maxWait now : ℤ) :
    CycleStatus × Option ℤ :=
  statusLoop allCycles lead maxWait now (candidateTimes now) (.NO_CYCLE, none)

/-- A candidate whose window `[cycle + lead, cycle + lead + max_wait]`
contains `now`. -/
def readyAt (lead maxWait now c : ℤ) : Bool :=
  decide (c + lead ≤ now ∧ now ≤ c + lead + maxWait)

/-- A candidate whose window has not opened yet (`now < cycle + lead`). -/
def waitingAt (lead now c : ℤ) : Bool :=
  decide (now < c + lead)

/-- The candidates of the scan that belong to `all_cycles`, in scan order. -/
def scanCandidates (allCycles : List ℤ) (now : ℤ) : List ℤ :=
  (candidateTimes now).filter fun c => decide (hourOfMinutes c ∈ allCycles)

/-- The scheduler result as the claim words it: the first (most recent)
candidate whose window contains `now` wins as `READY`; otherwise the
first-seen `WAITING`; otherwise the first-seen `MISSED`; otherwise
`NO_CYCLE`. -/
def spec_check_download_status (allCycles : List ℤ) (lead maxWait now : ℤ) :
    CycleStatus × Option ℤ :=
  let cands := scanCandidates allCycles now
  match cands.find? (readyAt lead maxWait now) with
  | some c => (.READY, some c)
  | none =>
    match cands.find? (waitingAt lead now) with
    | some c => (.WAITING, some c)
    | none =>
      match cands.find? (fun c => !readyAt lead maxWait now c && !waitingAt lead now c) with
      | some c => (.MISSED, some c)
      | none => (.NO_CYCLE, none)

/-- The claim's choice cascade over an arbitrary scan list, used to relate the
scanning loop to `spec_check_download_status`. -/
def specChoice (allCycles : List ℤ) (lead maxWait now : ℤ) (cs : List ℤ) :
    CycleStatus × Option ℤ :=
  let f := cs.filter fun c => decide (hourOfMinutes c ∈ allCycles)
  match f.find? (readyAt lead maxWait now) with
  | some c => (.READY, some c)
  | none =>
    match f.find? (waitingAt lead now) with
    | some c => (.WAITING, some c)
    | none =>
      match f.find? (fun c => !readyAt lead maxWait now c && !waitingAt lead now c) with
      | some c => (.MISSED, some c)
      | none => (.NO_CYCLE, none)

/-! ### `download.WeatherModelConfig.get_forecast_duration` -/

/-- One entry of `schedule.cycle_configs` (`long_run` or `short_run`). -/
structure CycleRunConfig where
  appliesToHours : List ℕ
  forecastHours : ℕ

/-- The schedule section of a model configuration.  `cycleConfigs = none`
models a configuration without a usable `cycle_configs` section, where the
attribute accesses inside the `try` raise and the bare `except` falls back. -/
structure ScheduleConfig where
  cycleConfigs : Option (CycleRunConfig × CycleRunConfig)
  forecastHours : ℕ
  allCycles : List ℕ

/-- Method `WeatherModelConfig.get_forecast_duration`: with a usable
`cycle_configs`, the long run wins, then the short run, else 0; on an
exception, `schedule.forecast_hours` when the hour is in `all_cycles`,
else the default 0. -/
def get_forecast_duration (s : ScheduleConfig) (cycleHour : ℕ) : ℕ :=
  match s.cycleConfigs with
  | some (longRun, shortRun) =>
    if cycleHour ∈ longRun.appliesToHours then longRun.forecastHours
    else if cycleHour ∈ shortRun.appliesToHours then shortRun.forecastHours
    else 0
  | none =>
    if cycleHour ∈ s.allCycles then s.forecastHours
    else 0

/-! ### The tail server (`websocket.FileWatcher.read_new_frames`, `handler`)

`read_new_frames` seeks to the stored offset and parses complete records
from there, so it is modelled as a parser on the unread suffix of the
file returning the parsed frames and the number of bytes consumed (the
offset advances only past complete records; an incomplete header or
payload consumes nothing). -/

/-- The parsing loop of `FileWatcher.read_new_frames` on the unread suffix:
read a 5-byte header `<IB` (stop consuming nothing when short), then
`length` payload bytes (stop and back up when short), yield
`(frame_type, payload)` and continue; returns the frames in file order and
the number of bytes consumed. -/
def parseFrames (bytes : List ℕ) : List (ℕ × List ℕ) × ℕ :=
  if bytes.length < 5 then ([], 0)
  else
    let L := readU32 (bytes.take 4)
    let ft := (bytes.drop 4).headD 0
    if bytes.length < 5 + L then ([], 0)
    else
      let pr := parseFrames (bytes.drop (5 + L))
      ((ft, (bytes.drop 5).take L) :: pr.1, (5 + L) + pr.2)
termination_by bytes.length
decreasing_by simpa using by omega

/-- The messages `handler` sends for the parsed frames, in order:
`struct.pack('BB', stream_id, frame_type)` with `stream_id = STREAM_MAIN = 0`,
followed by the raw payload bytes unchanged. -/
def clientMessages (bytes : List ℕ) : List (List ℕ) :=
  (parseFrames bytes).1.map fun fr => 0 :: fr.1 :: fr.2

/-- Concatenation of records as the writer appends them with `write_chunk`. -/
def encodeRecords (recs : List (ℕ × List ℕ)) : List ℕ :=
  (recs.map fun r => write_chunk r.1 r.2).flatten

/-- A byte string that is not a complete record: shorter than the 5-byte
header, or shorter than the header plus the declared payload length. -/
def incompleteRecord (tail : List ℕ) : Prop :=
  tail.length < 5 ∨ tail.length < 5 + readU32 (tail.take 4)

/-! ### The lock of `run_model.process_single_model`

Two workers targeting the same (model, cycle) share one lock file.  A
worker executes, in order: the `os.path.exists` check (skipping to the
end when the lock exists), the lock creation, the downloading/encoding
work, and the `finally` removal.  A schedule interleaves the atomic
steps of the two workers. -/

/-- The control state of one worker: its program counter
(0 = about to check, 1 = about to create, 2 = about to work,
3 = about to remove, 4 = done) and whether it performed the work
(downloaded / wrote records). -/
structure WorkerState where
  pc : ℕ
  worked : Bool
deriving DecidableEq

/-- One atomic step of a worker against the lock, returning the new worker
state and the new lock state.  The existence check and the creation are
separate steps, as `os.path.exists` and `open(lock, 'w')` are in the code. -/
def stepWorker (lock : Bool) (w : WorkerState) : WorkerState × Bool :=
  match w.pc with
  | 0 => if lock then (⟨4, w.worked⟩, lock) else (⟨1, w.worked⟩, lock)
  | 1 => (⟨2, w.worked⟩, true)
  | 2 => (⟨3, true⟩, lock)
  | 3 => (⟨4, w.worked⟩, false)
  | _ => (w, lock)

/-- The shared state of two workers and the lock file. -/
structure LockSystem where
  lock : Bool
  wa : WorkerState
  wb : WorkerState
deriving DecidableEq

/-- One scheduled step: `true` steps worker A, `false` steps worker B. -/
def stepSystem (s : LockSystem) (who : Bool) : LockSystem :=
  if who then
    let r := stepWorker s.lock s.wa
    ⟨r.2, r.1, s.wb⟩
  else
    let r := stepWorker s.lock s.wb
    ⟨r.2, s.wa, r.1⟩

/-- Run a schedule of interleaved worker steps. -/
def runSchedule (s : LockSystem) (sched : List Bool) : LockSystem :=
  sched.foldl stepSystem s

/-- Both workers at their start, no lock present. -/
def initLockSystem : LockSystem :=
  ⟨false, ⟨0, false⟩, ⟨0, false⟩⟩

/-! ## Lemmas and theorems -/

theorem length_u32le (n : ℕ) : (u32le n).length = 4 := rfl

theorem length_u16le (n : ℕ) : (u16le n).length = 2 := rfl

theorem readU32_u32le {n : ℕ} (h : n < 2 ^ 32) : readU32 (u32le n) = n := by
  simp only [readU32, u32le, List.getD_cons_zero, List.getD_cons_succ]
  omega

theorem readU16_u16le {n : ℕ} (h : n < 2 ^ 16) : readU16 (u16le n) = n := by
  simp only [readU16, u16le, List.getD_cons_zero, List.getD_cons_succ]
  omega

theorem write_chunk_take4 (ft : ℕ) (payload : List ℕ) :
    (write_chunk ft payload).take 4 = u32le payload.length := by
  rw [write_chunk, List.append_assoc, List.take_left' (length_u32le _)]

theorem write_chunk_drop4 (ft : ℕ) (payload : List ℕ) :
    (write_chunk ft payload).drop 4 = ft :: payload := by
  rw [write_chunk, List.append_assoc, List.drop_left' (length_u32le _)]
  rfl

theorem write_chunk_drop5 (ft : ℕ) (payload : List ℕ) :
    (write_chunk ft payload).drop 5 = payload := by
  rw [write_chunk]
  exact List.drop_left' (by simp [u32le])

theorem wepxPayload_take4 (vt : ℕ) (meta body : List ℕ) :
    (wepxPayload vt meta body).take 4 = u32le vt := by
  rw [wepxPayload, prepare_payload, List.take_left' (length_u32le _)]

theorem wepxPayload_drop4 (vt : ℕ) (meta body : List ℕ) :
    (wepxPayload vt meta body).drop 4 = u16le meta.length ++ meta ++ body := by
  rw [wepxPayload, prepare_payload, List.drop_left' (length_u32le _)]

theorem wepxPayload_drop6 (vt : ℕ) (meta body : List ℕ) :
    (wepxPayload vt meta body).drop 6 = meta ++ body := by
  rw [wepxPayload, prepare_payload, List.append_assoc (u16le meta.length) meta body,
    ← List.append_assoc]
  exact List.drop_left' (by simp [u32le, u16le])

/-- C1.  For every frame the encoder appends, the record written to the stream
file is a 5-byte header `<length: u32 LE><type: u8>` where `length` equals the
byte length of the payload that follows, and every payload begins with a
4-byte little-endian `valid_time` followed by a 2-byte little-endian
`meta_len` (`meta_len` bytes of meta JSON follow, then the compressed body;
P-frame payloads carry an empty meta block, hence `meta_len = 0`).  The header
writer is the checked-in `write_chunk`; the payload assembly is modelled from
the spec. -/
theorem c1_record_payload_format (ft vt : ℕ) (meta body : List ℕ)
    (hp : (wepxPayload vt meta body).length < 2 ^ 32) (hv : vt < 2 ^ 32)
    (hm : meta.length < 2 ^ 16) :
    readU32 ((write_chunk ft (wepxPayload vt meta body)).take 4) =
      (wepxPayload vt meta body).length ∧
    ((write_chunk ft (wepxPayload vt meta body)).drop 4).headD 0 = ft ∧
    (write_chunk ft (wepxPayload vt meta body)).drop 5 = wepxPayload vt meta body ∧
    readU32 ((wepxPayload vt meta body).take 4) = vt ∧
    readU16 (((wepxPayload vt meta body).drop 4).take 2) = meta.length ∧
    ((wepxPayload vt meta body).drop 6).take meta.length = meta ∧
    ((wepxPayload vt meta body).drop 6).drop meta.length = body ∧
    readU16 (((wepxPayload vt [] body).drop 4).take 2) = 0 := by
  refine ⟨?_, ?_, ?_, ?_, ?_, ?_, ?_, ?_⟩
  · rw [write_chunk_take4, readU32_u32le hp]
  · rw [write_chunk_drop4, List.headD_cons]
  · exact write_chunk_drop5 _ _
  · rw [wepxPayload_take4, readU32_u32le hv]
  · rw [wepxPayload_drop4, List.append_assoc, List.take_left' (length_u16le _),
      readU16_u16le hm]
  · rw [wepxPayload_drop6, List.take_left]
  · rw [wepxPayload_drop6, List.drop_left]
  · rw [wepxPayload_drop4]
    rfl

theorem c1_record_payload_format_witness :
    readU32 ((write_chunk TYPE_I_FRAME (wepxPayload 100 [123] [7, 8])).take 4) =
      (wepxPayload 100 [123] [7, 8]).length ∧
    ((write_chunk TYPE_I_FRAME (wepxPayload 100 [123] [7, 8])).drop 4).headD 0 =
      TYPE_I_FRAME ∧
    (write_chunk TYPE_I_FRAME (wepxPayload 100 [123] [7, 8])).drop 5 =
      wepxPayload 100 [123] [7, 8] ∧
    readU32 ((wepxPayload 100 [123] [7, 8]).take 4) = 100 ∧
    readU16 (((wepxPayload 100 [123] [7, 8]).drop 4).take 2) = [123].length ∧
    ((wepxPayload 100 [123] [7, 8]).drop 6).take [123].length = [123] ∧
    ((wepxPayload 100 [123] [7, 8]).drop 6).drop [123].length = [7, 8] ∧
    readU16 (((wepxPayload 100 [] [7, 8]).drop 4).take 2) = 0 :=
  c1_record_payload_format TYPE_I_FRAME 100 [123] [7, 8] (by decide) (by decide)
    (by decide)

theorem parseFrames_incomplete {bytes : List ℕ} (h : incompleteRecord bytes) :
    parseFrames bytes = ([], 0) := by
  rw [parseFrames]
  rcases h with h | h
  · simp [h]
  · by_cases h5 : bytes.length < 5
    · simp [h5]
    · simp [h5, h]

theorem encodeRecords_cons (r : ℕ × List ℕ) (rs : List (ℕ × List ℕ)) :
    encodeRecords (r :: rs) = write_chunk r.1 r.2 ++ encodeRecords rs := by
  simp [encodeRecords]

theorem length_write_chunk (ft : ℕ) (pl : List ℕ) :
    (write_chunk ft pl).length = 5 + pl.length := by
  simp [write_chunk, u32le]
  omega

theorem parseFrames_append (ft : ℕ) (pl rest : List ℕ) (h : pl.length < 2 ^ 32) :
    parseFrames (write_chunk ft pl ++ rest) =
      ((ft, pl) :: (parseFrames rest).1, (5 + pl.length) + (parseFrames rest).2) := by
  have hb : write_chunk ft pl ++ rest = u32le pl.length ++ (ft :: (pl ++ rest)) := by
    simp [write_chunk]
  have hlen : (u32le pl.length ++ (ft :: (pl ++ rest))).length =
      5 + pl.length + rest.length := by
    simp [u32le]
    omega
  have h4 : (u32le pl.length ++ (ft :: (pl ++ rest))).take 4 = u32le pl.length :=
    List.take_left' (length_u32le _)
  have hd4 : (u32le pl.length ++ (ft :: (pl ++ rest))).drop 4 = ft :: (pl ++ rest) :=
    List.drop_left' (length_u32le _)
  have hd5 : (u32le pl.length ++ (ft :: (pl ++ rest))).drop 5 = pl ++ rest := by
    have e : (5 : ℕ) = 4 + 1 := rfl
    rw [e, ← List.drop_drop, hd4, List.drop_one, List.tail_cons]
  rw [hb, parseFrames]
  rw [hlen, h4, readU32_u32le h, hd4]
  have hc1 : ¬5 + pl.length + rest.length < 5 := by omega
  have hc2 : ¬5 + pl.length + rest.length < 5 + pl.length := by omega
  rw [if_neg hc1, if_neg hc2]
  have hdrop : (u32le pl.length ++ (ft :: (pl ++ rest))).drop (5 + pl.length) = rest := by
    rw [← List.drop_drop, hd5, List.drop_left]
  rw [hdrop, hd5, List.headD_cons, List.take_left]

/-- C7.  For every complete record in the watched stream file, the tail server
sends exactly one message `<stream_id = 0><frame_type>` followed by the
record's payload bytes unchanged, in file order; an incomplete header or
payload consumes nothing (the offset does not advance), so appending records
of payload lengths `L1, L2, L3` yields exactly those messages in order. -/
theorem c7_tail_server (recs : List (ℕ × List ℕ)) (t : List ℕ)
    (hlen : ∀ r ∈ recs, (r.2).length < 2 ^ 32) (ht : incompleteRecord t) :
    parseFrames (encodeRecords recs ++ t) = (recs, (encodeRecords recs).length) ∧
    clientMessages (encodeRecords recs ++ t) = recs.map (fun r => 0 :: r.1 :: r.2) ∧
    parseFrames t = ([], 0) := by
  have key : ∀ rs : List (ℕ × List ℕ), (∀ r ∈ rs, (r.2).length < 2 ^ 32) →
      parseFrames (encodeRecords rs ++ t) = (rs, (encodeRecords rs).length) := by
    intro rs
    induction rs with
    | nil =>
      intro _
      simpa [encodeRecords] using parseFrames_incomplete ht
    | cons r rs ih =>
      intro hall
      have h1 : (r.2).length < 2 ^ 32 := hall r (by simp)
      have ih' := ih fun x hx => hall x (by simp [hx])
      rw [encodeRecords_cons, List.append_assoc, parseFrames_append r.1 r.2 _ h1, ih']
      simp [encodeRecords_cons, length_write_chunk]
  refine ⟨key recs hlen, ?_, parseFrames_incomplete ht⟩
  rw [clientMessages, key recs hlen]

theorem c7_tail_server_witness :
    parseFrames (encodeRecords [(0, [1]), (1, [2, 2]), (1, [3, 3, 3])] ++ [9, 9]) =
      ([(0, [1]), (1, [2, 2]), (1, [3, 3, 3])],
        (encodeRecords [(0, [1]), (1, [2, 2]), (1, [3, 3, 3])]).length) ∧
    clientMessages (encodeRecords [(0, [1]), (1, [2, 2]), (1, [3, 3, 3])] ++ [9, 9]) =
      [[0, 0, 1], [0, 1, 2, 2], [0, 1, 3, 3, 3]] ∧
    parseFrames [9, 9] = ([], 0) := by
  have h := c7_tail_server [(0, [1]), (1, [2, 2]), (1, [3, 3, 3])] [9, 9]
    (by decide) (Or.inl (by decide))
  simpa using h

theorem metaUsed_appendStep (s : StreamState) (g : Grid) :
    ((appendStep s g).1).metaUsed = s.metadata := by
  simp only [appendStep]
  split <;> rfl

theorem snd_appendStep (s : StreamState) (g : Grid) :
    (appendStep s g).2 = ⟨s.metadata, g, s.frameCount + 1⟩ := rfl

theorem processFrom_map_metaUsed (s : StreamState) (frames : List Grid) :
    (processFrom s frames).map Record.metaUsed =
      List.replicate frames.length s.metadata := by
  induction frames generalizing s with
  | nil => rfl
  | cons g rest ih =>
    simp only [processFrom, List.map_cons, List.length_cons, List.replicate_succ]
    rw [metaUsed_appendStep, snd_appendStep, ih]

theorem stream_map_metaUsed (g0 : Grid) (rest : List Grid) :
    (processStream (g0 :: rest)).map Record.metaUsed =
      List.replicate (rest.length + 1) (computeStreamMeta g0) := by
  simp only [processStream, initStream, List.map_cons, List.replicate_succ]
  rw [processFrom_map_metaUsed]
  rfl

/-- C2.  The quantization metadata computed by `renderImage` from frame 0
alone is the metadata used to encode every record of the stream: after
initialization the per-stream state's `metadata` field is never recomputed or
replaced, whatever the later frames hold. -/
theorem c2_metadata_frozen (g0 : Grid) (rest : List Grid) :
    (processStream (g0 :: rest)).map Record.metaUsed =
      List.replicate (rest.length + 1) (computeStreamMeta g0) :=
  stream_map_metaUsed g0 rest

theorem recType_appendStep (s : StreamState) (g : Grid) :
    ((appendStep s g).1).recType =
      if (s.frameCount + 1) % I_FRAME_INTERVAL = 0 then FrameType.I else FrameType.P := by
  simp only [appendStep]
  split <;> rfl

theorem processFrom_map_recType (s : StreamState) (frames : List Grid) :
    (processFrom s frames).map Record.recType =
      (List.range frames.length).map
        (fun j => if (s.frameCount + 1 + j) % I_FRAME_INTERVAL = 0
          then FrameType.I else FrameType.P) := by
  induction frames generalizing s with
  | nil => rfl
  | cons g rest ih =>
    simp only [processFrom, List.map_cons, List.length_cons]
    rw [List.range_succ_eq_map, List.map_cons, List.map_map]
    rw [recType_appendStep, snd_appendStep, ih]
    refine congrArg₂ _ (by simp) ?_
    apply List.map_congr_left
    intro j _
    simp only [Function.comp_apply]
    have e : s.frameCount + 1 + 1 + j = s.frameCount + 1 + (j + 1) := by omega
    rw [e]

theorem stream_map_recType (g0 : Grid) (rest : List Grid) :
    (processStream (g0 :: rest)).map Record.recType =
      (List.range (rest.length + 1)).map
        (fun i => if i % I_FRAME_INTERVAL = 0 then FrameType.I else FrameType.P) := by
  simp only [processStream, initStream, List.map_cons]
  rw [processFrom_map_recType, List.range_succ_eq_map, List.map_cons, List.map_map]
  refine congrArg₂ _ rfl ?_
  apply List.map_congr_left
  intro j _
  simp only [Function.comp_apply]
  have e : (0 : ℕ) + 1 + j = j + 1 := by omega
  rw [e]

theorem count_I_of_range (n : ℕ) :
    (((List.range n).map fun j => if (j + 1) % I_FRAME_INTERVAL = 0
      then FrameType.I else FrameType.P).count FrameType.I) = n / 8 := by
  induction n with
  | zero => rfl
  | succ n ih =>
    rw [List.range_succ, List.map_append, List.count_append, ih]
    by_cases h : (n + 1) % I_FRAME_INTERVAL = 0
    · simp only [I_FRAME_INTERVAL] at h
      simp [h, I_FRAME_INTERVAL]
      omega
    · simp only [I_FRAME_INTERVAL] at h
      simp [h, I_FRAME_INTERVAL]
      omega

/-- C5.  Frame 0 of every stream is an I-frame, appended frames are I-frames
exactly at indices that are multiples of `I_FRAME_INTERVAL = 8` (so `k`
appends contain exactly `k / 8` I-frames), and 17 frames of identical grids
produce the record-type sequence `[I, P×7, I, P×7, I]`. -/
theorem c5_iframe_cadence :
    (∀ (g0 : Grid) (rest : List Grid),
      (processStream (g0 :: rest)).map Record.recType =
        (List.range (rest.length + 1)).map
          (fun i => if i % I_FRAME_INTERVAL = 0 then FrameType.I else FrameType.P)) ∧
    (∀ (g0 : Grid) (rest : List Grid),
      (((processStream (g0 :: rest)).map Record.recType).tail).count FrameType.I =
        rest.length / 8) ∧
    (processStream (List.replicate 17 [[some (1 : ℚ)]])).map Record.recType =
      [FrameType.I, .P, .P, .P, .P, .P, .P, .P, .I, .P, .P, .P, .P, .P, .P, .P, .I] := by
  refine ⟨stream_map_recType, ?_, ?_⟩
  case refine_2 =>
    rw [show List.replicate 17 [[some (1 : ℚ)]] =
        [[some (1 : ℚ)]] :: List.replicate 16 [[some (1 : ℚ)]] from rfl,
      stream_map_recType]
    decide
  intro g0 rest
  rw [stream_map_recType, List.range_succ_eq_map, List.map_cons, List.map_map,
    List.tail_cons]
  rw [show ((fun i => if i % I_FRAME_INTERVAL = 0 then FrameType.I else FrameType.P)
      ∘ Nat.succ) = fun j => if (j + 1) % I_FRAME_INTERVAL = 0
      then FrameType.I else FrameType.P from rfl]
  exact count_I_of_range rest.length

theorem computeStreamMeta_RANGE_ne_zero (g : Grid) : (computeStreamMeta g).RANGE ≠ 0 := by
  simp only [computeStreamMeta]
  by_cases h : (valueStats g).2 - (valueStats g).1 = 0 <;> simp [h]

/-- C10.  The metadata frozen at stream initialization always has
`RANGE ≠ 0` (an all-NaN first frame yields `MIN = 0.0`, `MAX = 1.0`, and a
zero value-range is replaced by `RANGE = 1.0`), so the `(value - MIN) / RANGE`
normalizations of every subsequent I-frame and P-frame encode never divide by
zero. -/
theorem c10_range_never_zero :
    (∀ g : Grid, (computeStreamMeta g).RANGE ≠ 0) ∧
    valueStats [[none], [none]] = (0, 1) ∧
    (computeStreamMeta [[some 17, some 17]]).RANGE = 1 ∧
    (∀ (g0 : Grid) (rest : List Grid), ∀ r ∈ processStream (g0 :: rest),
      (r.metaUsed).RANGE ≠ 0) := by
  refine ⟨computeStreamMeta_RANGE_ne_zero, by decide, ?_, ?_⟩
  case refine_1 =>
    norm_num [computeStreamMeta, valueStats, validValues, qmin, qmax,
      List.flatten_cons, List.flatten_nil, List.filterMap_cons, id_eq]
  intro g0 rest r hr
  have hm : r.metaUsed ∈ (processStream (g0 :: rest)).map Record.metaUsed :=
    List.mem_map_of_mem _ hr
  rw [stream_map_metaUsed] at hm
  rw [List.eq_of_mem_replicate hm]
  exact computeStreamMeta_RANGE_ne_zero g0

theorem c10_range_never_zero_witness :
    ((mkIFrameRecord (computeStreamMeta [[some (1 : ℚ)]]) [[some (1 : ℚ)]]).metaUsed).RANGE ≠ 0 :=
  c10_range_never_zero.2.2.2 [[some (1 : ℚ)]] []
    (mkIFrameRecord (computeStreamMeta [[some (1 : ℚ)]]) [[some (1 : ℚ)]])
    (List.mem_singleton_self _)

/-- C4.  The scale chosen at stream initialization is a deterministic function
of the first frame's non-NaN value range: ranges 0, 3, 10, 50 and 300 give
scales 10000, 10000, 100, 10 and 1, and a first frame with no valid pixel
gives the fallback 100.0.  (Modelled from the spec's scale-selection table.) -/
theorem c4_scale_buckets :
    scale_chosen [[some 5, some 5]] = 10000 ∧
    scale_chosen [[some 0, some 3]] = 10000 ∧
    scale_chosen [[some 0, some 10]] = 100 ∧
    scale_chosen [[some 0, some 50]] = 10 ∧
    scale_chosen [[some 0, some 300]] = 1 ∧
    scale_chosen [[none, none]] = 100 := by
  refine ⟨?_, ?_, ?_, ?_, ?_, ?_⟩ <;>
    norm_num [scale_chosen, chooseScale, valueRange, validValues, qmin, qmax,
      List.flatten_cons, List.flatten_nil, List.filterMap_cons, id_eq]

theorem scanl_add_zipWith_sub (x : ℤ) (l : List ℤ) :
    List.scanl (· + ·) x (List.zipWith (fun a b => a - b) l (x :: l)) = x :: l := by
  induction l generalizing x with
  | nil => rfl
  | cons b l ih =>
    rw [List.zipWith_cons_cons, List.scanl_cons]
    rw [show x + (b - x) = b by ring]
    rw [ih b]
    rfl

theorem unSpatial_spatial_row (l : List ℤ) : unSpatialDiffRow (spatialDiffRow l) = l := by
  cases l with
  | nil => rfl
  | cons a rest =>
    simp only [spatialDiffRow, unSpatialDiffRow]
    exact scanl_add_zipWith_sub a rest

theorem unSpatial_spatial_grid (g : List (List ℤ)) :
    unSpatialDiffGrid (spatialDiffGrid g) = g := by
  simp only [unSpatialDiffGrid, spatialDiffGrid, List.map_map]
  exact (List.map_congr_left fun l _ => unSpatial_spatial_row l).trans (List.map_id g)

theorem zipWith_add_sub (p c : List ℤ) (h : p.length = c.length) :
    List.zipWith (fun a b => a + b) p (List.zipWith (fun a b => a - b) c p) = c := by
  induction p generalizing c with
  | nil =>
    cases c with
    | nil => rfl
    | cons _ _ => simp at h
  | cons a p ih =>
    cases c with
    | nil => simp at h
    | cons b c =>
      simp only [List.length_cons, Nat.add_right_cancel_iff] at h
      rw [List.zipWith_cons_cons, List.zipWith_cons_cons]
      rw [show a + (b - a) = b by ring, ih c h]

theorem grid_add_sub (x y : List (List ℤ)) (h : x.map List.length = y.map List.length) :
    gridZipWith (fun p d => p + d) x (gridZipWith (fun c p => c - p) y x) = y := by
  induction x generalizing y with
  | nil =>
    cases y with
    | nil => rfl
    | cons _ _ => simp at h
  | cons r x ih =>
    cases y with
    | nil => simp at h
    | cons ry y =>
      simp only [List.map_cons, List.cons.injEq] at h
      simp only [gridZipWith, List.zipWith_cons_cons]
      rw [zipWith_add_sub r ry h.1]
      exact congrArg _ (ih y h.2)

theorem map_length_quantGrid (s : ℚ) (g : Grid) :
    (quantGrid s g).map List.length = g.map List.length := by
  simp [quantGrid, List.map_map, Function.comp_def]

/-- C3.  A P-frame's delta is computed by requantizing the previous raster
from its raw values with the stream's frozen scale (not from stored quantized
state), and the encoded body is the spatial differencing of the temporal delta
`q_curr - q_prev`; consequently a decoder holding the quantized previous frame
reconstructs the quantized current frame exactly.  (Codec modelled from the
spec.) -/
theorem c3_pframe_requantize (scale : ℚ) (prev curr : Grid) :
    wepxPFrameBody scale prev curr =
      spatialDiffGrid
        (gridZipWith (fun c p => c - p) (quantGrid scale curr) (quantGrid scale prev)) ∧
    (sameShape prev curr →
      wepxReconstructP scale prev (wepxPFrameBody scale prev curr) =
        quantGrid scale curr) := by
  refine ⟨rfl, ?_⟩
  intro hs
  rw [wepxReconstructP, wepxPFrameBody, temporalDiff, unSpatial_spatial_grid]
  apply grid_add_sub
  rw [map_length_quantGrid, map_length_quantGrid]
  exact hs

theorem c3_pframe_requantize_witness :
    wepxReconstructP 10 [[some (1 : ℚ), some 2]]
        (wepxPFrameBody 10 [[some (1 : ℚ), some 2]] [[some 3, none]]) =
      quantGrid 10 [[some 3, none]] :=
  (c3_pframe_requantize 10 [[some (1 : ℚ), some 2]] [[some 3, none]]).2 rfl

/-- C9.  When the configuration lacks a usable `schedule.cycle_configs`
section, `get_forecast_duration` falls back to `schedule.forecast_hours` for
hours in `all_cycles` and 0 otherwise; with `cycle_configs` present, an hour
in neither `applies_to_hours` list yields 0. -/
theorem c9_forecast_duration (s : ScheduleConfig) (cycleHour : ℕ) :
    (s.cycleConfigs = none →
      get_forecast_duration s cycleHour =
        if cycleHour ∈ s.allCycles then s.forecastHours else 0) ∧
    (∀ lr sr, s.cycleConfigs = some (lr, sr) → cycleHour ∉ lr.appliesToHours →
      cycleHour ∉ sr.appliesToHours → get_forecast_duration s cycleHour = 0) := by
  constructor
  · intro hn
    rw [get_forecast_duration, hn]
  · intro lr sr hs h1 h2
    rw [get_forecast_duration, hs]
    simp [h1, h2]

theorem c9_forecast_duration_witness :
    get_forecast_duration
        ⟨some (⟨[0, 12], 48⟩, ⟨[6, 18], 18⟩), 24, [0, 6, 12, 18]⟩ 7 = 0 ∧
    get_forecast_duration ⟨none, 24, [0, 6, 12, 18]⟩ 12 =
      if 12 ∈ [0, 6, 12, 18] then 24 else 0 := by
  constructor
  · exact (c9_forecast_duration ⟨some (⟨[0, 12], 48⟩, ⟨[6, 18], 18⟩), 24,
      [0, 6, 12, 18]⟩ 7).2 ⟨[0, 12], 48⟩ ⟨[6, 18], 18⟩ rfl (by decide) (by decide)
  · exact (c9_forecast_duration ⟨none, 24, [0, 6, 12, 18]⟩ 12).1 rfl

/-- C8 counterexample.  The existence check (`os.path.exists`) and the lock
creation (`open(lock, 'w')`) are two separate steps, so there is an
interleaving of two workers targeting the same (model, cycle) in which both
pass the check before either creates the lock, and both perform the work —
refuting "exactly one progresses". -/
theorem c8_lock_counterexample :
    (runSchedule initLockSystem
        [true, false, true, true, true, false, false, false]).wa.worked = true ∧
    (runSchedule initLockSystem
        [true, false, true, true, true, false, false, false]).wb.worked = true := by
  decide

/-- C8 amended.  A worker whose existence check runs while the lock is held
skips and never performs the work; a worker that completes removes the lock on
exit; and in an execution where one worker's check falls inside the other's
critical section, exactly one worker progresses.  Exactly-one-progress does
not hold for arbitrary interleavings because check-then-create is not
atomic. -/
theorem c8_lock_amended :
    (∀ w : WorkerState, w.pc = 0 → stepWorker true w = (⟨4, w.worked⟩, true)) ∧
    (∀ s : LockSystem, s.wb.pc = 4 → s.wb.worked = false →
      ∀ sched : List Bool, (runSchedule s sched).wb.pc = 4 ∧
        (runSchedule s sched).wb.worked = false) ∧
    (∀ (lock : Bool) (w : WorkerState), w.pc = 3 → (stepWorker lock w).2 = false) ∧
    (runSchedule initLockSystem [true, true, false, true, true]).wa.worked = true ∧
    (runSchedule initLockSystem [true, true, false, true, true]).wb.worked = false ∧
    (runSchedule initLockSystem [true, true, false, true, true]).lock = false := by
  refine ⟨?_, ?_, ?_, by decide, by decide, by decide⟩
  · intro w hw
    simp [stepWorker, hw]
  · intro s h1 h2 sched
    induction sched generalizing s with
    | nil => exact ⟨h1, h2⟩
    | cons who sched ih =>
      have hstep : (stepSystem s who).wb.pc = 4 ∧ (stepSystem s who).wb.worked = false := by
        cases who <;> simp [stepSystem, stepWorker, h1, h2]
      exact ih _ hstep.1 hstep.2
  · intro lock w hw
    simp [stepWorker, hw]

theorem c8_lock_amended_witness :
    (runSchedule ⟨true, ⟨0, false⟩, ⟨4, false⟩⟩ [false, false, true]).wb.worked = false :=
  (c8_lock_amended.2.1 ⟨true, ⟨0, false⟩, ⟨4, false⟩⟩ rfl rfl [false, false, true]).2

theorem statusLoop_of_ne (allC : List ℤ) (lead mw now : ℤ) (cs : List ℤ)
    (best : CycleStatus × Option ℤ) (hb : best.1 ≠ CycleStatus.NO_CYCLE) :
    statusLoop allC lead mw now cs best =
      match (cs.filter fun c => decide (hourOfMinutes c ∈ allC)).find?
          (readyAt lead mw now) with
      | some c => (CycleStatus.READY, some c)
      | none => best := by
  induction cs generalizing best with
  | nil => simp [statusLoop]
  | cons c cs ih =>
    by_cases hm : hourOfMinutes c ∈ allC
    · have hfc : List.filter (fun x => decide (hourOfMinutes x ∈ allC)) (c :: cs) =
          c :: List.filter (fun x => decide (hourOfMinutes x ∈ allC)) cs :=
        List.filter_cons_of_pos (by simpa using hm)
      by_cases hr : c + lead ≤ now ∧ now ≤ c + lead + mw
      · have hfind : List.find? (readyAt lead mw now)
            (c :: List.filter (fun x => decide (hourOfMinutes x ∈ allC)) cs) = some c :=
          List.find?_cons_of_pos _ (decide_eq_true hr)
        simp only [statusLoop, if_pos hm, if_pos hr]
        rw [hfc, hfind]
      · have hrb : readyAt lead mw now c = false := decide_eq_false hr
        have hfind : List.find? (readyAt lead mw now)
            (c :: List.filter (fun x => decide (hourOfMinutes x ∈ allC)) cs) =
            List.find? (readyAt lead mw now)
              (List.filter (fun x => decide (hourOfMinutes x ∈ allC)) cs) :=
          List.find?_cons_of_neg _ (by simp [hrb])
        simp only [statusLoop, if_pos hm, if_neg hr]
        rw [hfc, hfind]
        by_cases hw : now < c + lead
        · rw [if_pos hw, if_neg hb]
          exact ih best hb
        · rw [if_neg hw, if_neg hb]
          exact ih best hb
    · have hfc : List.filter (fun x => decide (hourOfMinutes x ∈ allC)) (c :: cs) =
          List.filter (fun x => decide (hourOfMinutes x ∈ allC)) cs :=
        List.filter_cons_of_neg (by simpa using hm)
      simp only [statusLoop, if_neg hm]
      rw [hfc]
      exact ih best hb

theorem statusLoop_specChoice (allC : List ℤ) (lead mw now : ℤ) (cs : List ℤ)
    (hs : cs.Pairwise (· > ·)) :
    statusLoop allC lead mw now cs (CycleStatus.NO_CYCLE, none) =
      specChoice allC lead mw now cs := by
  induction cs with
  | nil => rfl
  | cons c cs ih =>
    rw [List.pairwise_cons] at hs
    obtain ⟨hgt, hcs⟩ := hs
    by_cases hm : hourOfMinutes c ∈ allC
    · have hfc : List.filter (fun x => decide (hourOfMinutes x ∈ allC)) (c :: cs) =
          c :: List.filter (fun x => decide (hourOfMinutes x ∈ allC)) cs :=
        List.filter_cons_of_pos (by simpa using hm)
      by_cases hr : c + lead ≤ now ∧ now ≤ c + lead + mw
      · have hfind : List.find? (readyAt lead mw now)
            (c :: List.filter (fun x => decide (hourOfMinutes x ∈ allC)) cs) = some c :=
          List.find?_cons_of_pos _ (decide_eq_true hr)
        simp only [statusLoop, specChoice, if_pos hm, if_pos hr]
        rw [hfc, hfind]
      · have hrb : readyAt lead mw now c = false := decide_eq_false hr
        have hfindr : List.find? (readyAt lead mw now)
            (c :: List.filter (fun x => decide (hourOfMinutes x ∈ allC)) cs) =
            List.find? (readyAt lead mw now)
              (List.filter (fun x => decide (hourOfMinutes x ∈ allC)) cs) :=
          List.find?_cons_of_neg _ (by simp [hrb])
        by_cases hw : now < c + lead
        · have hwb : waitingAt lead now c = true := decide_eq_true hw
          have hfindw : List.find? (waitingAt lead now)
              (c :: List.filter (fun x => decide (hourOfMinutes x ∈ allC)) cs) = some c :=
            List.find?_cons_of_pos _ hwb
          simp only [statusLoop, if_pos hm, if_neg hr, if_pos hw, if_pos rfl]
          rw [statusLoop_of_ne _ _ _ _ cs _ (by simp)]
          simp only [specChoice]
          rw [hfc, hfindr, hfindw]
          cases hfind : (cs.filter fun x => decide (hourOfMinutes x ∈ allC)).find?
              (readyAt lead mw now) with
          | some c' => simp
          | none => simp
        · have hnw : c + lead ≤ now := not_lt.mp hw
          have hwb : waitingAt lead now c = false := decide_eq_false hw
          have hwf : (cs.filter fun x => decide (hourOfMinutes x ∈ allC)).find?
              (waitingAt lead now) = none := by
            rw [List.find?_eq_none]
            intro x hx
            have hx' : x ∈ cs := List.mem_of_mem_filter hx
            have hlt : x < c := hgt x hx'
            simp only [waitingAt, decide_eq_true_eq]
            omega
          have hfindw : List.find? (waitingAt lead now)
              (c :: List.filter (fun x => decide (hourOfMinutes x ∈ allC)) cs) =
              List.find? (waitingAt lead now)
                (List.filter (fun x => decide (hourOfMinutes x ∈ allC)) cs) :=
            List.find?_cons_of_neg _ (by simp [hwb])
          have hfindm : List.find?
              (fun x => !readyAt lead mw now x && !waitingAt lead now x)
              (c :: List.filter (fun x => decide (hourOfMinutes x ∈ allC)) cs) = some c :=
            List.find?_cons_of_pos _ (by simp [hrb, hwb])
          simp only [statusLoop, if_pos hm, if_neg hr, if_neg hw, if_pos rfl]
          rw [statusLoop_of_ne _ _ _ _ cs _ (by simp)]
          simp only [specChoice]
          rw [hfc, hfindr, hfindw, hwf, hfindm]
          cases hfind : (cs.filter fun x => decide (hourOfMinutes x ∈ allC)).find?
              (readyAt lead mw now) with
          | some c' => simp
          | none => simp
    · have hfc : List.filter (fun x => decide (hourOfMinutes x ∈ allC)) (c :: cs) =
          List.filter (fun x => decide (hourOfMinutes x ∈ allC)) cs :=
        List.filter_cons_of_neg (by simpa using hm)
      have hskip : specChoice allC lead mw now (c :: cs) =
          specChoice allC lead mw now cs := by
        simp only [specChoice]
        rw [hfc]
      simp only [statusLoop, if_neg hm]
      rw [hskip]
      exact ih hcs

theorem pairwise_candidateTimes (now : ℤ) : (candidateTimes now).Pairwise (· > ·) := by
  have h : ∀ a b : ℕ, a < b →
      floorToHour now - 60 * (a : ℤ) > floorToHour now - 60 * (b : ℤ) := by
    intro a b hab
    have hc : (a : ℤ) < (b : ℤ) := by exact_mod_cast hab
    omega
  unfold candidateTimes
  exact List.Pairwise.map (fun i : ℕ => floorToHour now - 60 * (i : ℤ)) h
    (List.pairwise_lt_range 24)

/-- C6.  `check_download_status` scans candidate hours backwards from the
floor of the current hour and returns `READY` immediately at the first
candidate whose window `[cycle + lead, cycle + lead + max_wait]` contains
`now`; otherwise the first-seen `WAITING` wins, then the first-seen `MISSED`,
then `NO_CYCLE` — and at most one `READY` cycle is ever returned (the result
is the unique first match).  With cycles {0, 6, 12, 18}, lead 30 and
now = 12:45 UTC the result is `(READY, 12:00)`. -/
theorem c6_scheduler_priority :
    (∀ (allCycles : List ℤ) (lead maxWait now : ℤ),
      check_download_status allCycles lead maxWait now =
        spec_check_download_status allCycles lead maxWait now) ∧
    check_download_status [0, 6, 12, 18] 30 30 765 = (CycleStatus.READY, some 720) := by
  constructor
  · intro allC lead mw now
    rw [check_download_status,
      statusLoop_specChoice allC lead mw now _ (pairwise_candidateTimes now)]
    rfl
  · decide

end Wepx
